import Mathlib

/-!
Shallow embedding of the two source files of this repository:

* `src/packages/gatsby-source-contentful/src/cascaded-context.js`
  (`getPath`, `findLongestPrefix`, `CascadedContext`), and
* `src/unnamed/part_000` (the Contentful schema generator:
  `ContentfulDataTypes`, `getLinkFieldType`, `translateFieldType`,
  `generateSchema`).

JavaScript strings are modelled as Lean `String`; a possibly-`undefined`
JavaScript value is an `Option`; JavaScript string interpolation of
`undefined` renders the literal text `"undefined"`; JavaScript truthiness
of a string is "defined and nonempty".  Fallible code returns `Except`.
The mutable module state of the schema generator (the `unionsNameSet`
module global and the stream of `createTypes` calls) is threaded as an
explicit `SchemaState` value.
-/

/-- Rendering of a possibly-undefined JavaScript string inside a template
literal: an absent value prints as the text "undefined". -/
def jsStr (s : Option String) : String := s.getD "undefined"

/-- JavaScript `target.startsWith(pre)`: character-level prefix test. -/
def jsStartsWith (s pre : String) : Bool := pre.data.isPrefixOf s.data

/-- JavaScript truthiness of a string-or-undefined value: `undefined` and
the empty string are falsy, every other string is truthy. -/
def jsTruthyStr : Option String → Bool
  | none => false
  | some s => s ≠ ""

/-! ## cascaded-context.js -/

/-- A traversal-path node as supplied to `CascadedContext`: a `{key, prev}`
chain.  `root` is a node whose `prev` is absent; `cons` carries a parent
link.  A node's `key` may itself be undefined (`none`). -/
inductive PathNode where
  | root (key : Option String)
  | cons (key : Option String) (prev : PathNode)
deriving DecidableEq

/-- Rendering of a node key inside the path template literal
(`String(path.key)` and the interpolation both print `undefined` for an
absent key). -/
def keyStr (k : Option String) : String := jsStr k

/-- One step of `getPath`: the line
`const newPath = currentPath ? `.`{path.key}:{currentPath}` : String(path.key)`
(with JavaScript truthiness on `currentPath`). -/
def pathStep (k : Option String) (currentPath : Option String) : String :=
  if jsTruthyStr currentPath then keyStr k ++ ":" ++ currentPath.getD ""
  else keyStr k

/-- The recursion of `getPath` from cascaded-context.js: compute `newPath`,
stop when `path.prev` is absent, otherwise recurse on the parent with
`newPath` as accumulator. -/
def getPathGo : PathNode → Option String → String
  | PathNode.root k, currentPath => pathStep k currentPath
  | PathNode.cons k prev, currentPath => getPathGo prev (some (pathStep k currentPath))

/-- Entry point `getPath(path)`: the function first checks
`path === undefined` and throws `new Error("path was undefined")`; on the
initial call `currentPath` is `undefined`. -/
def getPath : Option PathNode → Except String String
  | none => Except.error "path was undefined"
  | some p => Except.ok (getPathGo p none)

/-- The loop body of `findLongestPrefix`: iterate the stored keys carrying
the current `match` (initially `undefined`) and `matchLength` (initially
`0`), replacing them whenever a key is a prefix of `target` strictly longer
than the best so far. -/
def flpGo (target : String) : List String → Option String → Nat → Option String
  | [], m, _ => m
  | p :: ps, m, matchLength =>
    if jsStartsWith target p ∧ matchLength < p.length
    then flpGo target ps (some p) p.length
    else flpGo target ps m matchLength

/-- The source function `findLongestPrefix(target, prefixes)`. -/
def findLongestPrefix (target : String) (prefixes : List String) : Option String :=
  flpGo target prefixes none 0

/-- Insertion-ordered map state of a JavaScript `Map`: `set` updates an
existing key in place, otherwise appends. -/
def mapSet {α : Type} (m : List (String × α)) (k : String) (v : α) : List (String × α) :=
  if m.any (fun kv => kv.1 = k) then m.map (fun kv => if kv.1 = k then (k, v) else kv)
  else m ++ [(k, v)]

/-- Lookup in the JavaScript `Map` model. -/
def mapGet {α : Type} (m : List (String × α)) (k : String) : Option α :=
  (m.find? (fun kv => kv.1 = k)).map Prod.snd

/-- The `CascadedContext` class: its `cascadeMap` (a JavaScript `Map` from
path strings to values) and the `defaultValue` consulted by `get` when no
stored key matches.  In the source `defaultValue` is an instance property
assigned by the owner of the context; it is modelled as a field. -/
structure CascadedContext (α : Type) where
  cascadeMap : List (String × α)
  defaultValue : α

/-- Method `set(info, value)`: compute the path of `info.path` and store
`value` under that exact key. -/
def CascadedContext.set {α : Type} (ctx : CascadedContext α) (infoPath : Option PathNode)
    (value : α) : Except String (CascadedContext α) :=
  match getPath infoPath with
  | Except.error e => Except.error e
  | Except.ok path => Except.ok { ctx with cascadeMap := mapSet ctx.cascadeMap path value }

/-- Method `get(info)`: compute the path, find the longest stored prefix of
it, and return that entry (the `if (lastCascade)` guard is JavaScript
truthiness, so an empty-string result would also fall back to
`defaultValue`). -/
def CascadedContext.get {α : Type} (ctx : CascadedContext α) (infoPath : Option PathNode) :
    Except String α :=
  match getPath infoPath with
  | Except.error e => Except.error e
  | Except.ok path =>
    let cascadeKeys := ctx.cascadeMap.map Prod.fst
    match findLongestPrefix path cascadeKeys with
    | some lastCascade =>
      if lastCascade ≠ "" then Except.ok ((mapGet ctx.cascadeMap lastCascade).getD ctx.defaultValue)
      else Except.ok ctx.defaultValue
    | none => Except.ok ctx.defaultValue

/-- Method `has(value)`: reverse existence check over the stored values. -/
def CascadedContext.has {α : Type} [DecidableEq α] (ctx : CascadedContext α) (value : α) : Bool :=
  ctx.cascadeMap.any (fun kv => kv.2 = value)

/-! Specification-side definitions for the cascaded context, used to state
the claims (they are compared against the source functions above). -/

/-- Specification-side reading of the path computation in claim C3: the
chain's keys joined with ":" with the leaf key leftmost (each node
contributes `currentKey : parentPath`). -/
def specLeafFirstJoin : PathNode → String
  | PathNode.root k => keyStr k
  | PathNode.cons k prev => keyStr k ++ ":" ++ specLeafFirstJoin prev

/-- Join of a chain's keys with ":" with the root key leftmost and the leaf
key (the most specific segment) rightmost: the parent's path is computed
first and the current key appended after it. -/
def joinRootFirst : PathNode → String
  | PathNode.root k => keyStr k
  | PathNode.cons k prev => joinRootFirst prev ++ ":" ++ keyStr k

/-- Predicate: every node of the chain has a defined, nonempty key. -/
def goodKeys : PathNode → Bool
  | PathNode.root k => jsTruthyStr k
  | PathNode.cons k prev => jsTruthyStr k && goodKeys prev

/-- Predicate: some node of the chain has an undefined key. -/
def hasNoneKey : PathNode → Bool
  | PathNode.root k => k.isNone
  | PathNode.cons k prev => k.isNone || hasNoneKey prev

/-- Ancestor-or-self relation on traversal chains: `a` occurs on the `prev`
chain of `b` (or is `b` itself). -/
def ancestorOrSelf (a : PathNode) : PathNode → Bool
  | PathNode.root k => a = PathNode.root k
  | PathNode.cons k prev => a = PathNode.cons k prev || ancestorOrSelf a prev

/-! ## part_000: the Contentful schema generator -/

/-- Value of the `linkContentType` property of a validation record: in the
source it may be a single string or an array of strings
(`Array.isArray(linkContentType) ? linkContentType : [linkContentType]`). -/
inductive LinkContentTypeValue where
  | one (s : String)
  | many (l : List String)
deriving DecidableEq

/-- A validation record; only the `linkContentType` shape is interpreted
(other validation kinds are records where that property is absent). -/
structure Validation where
  linkContentType : Option LinkContentTypeValue
deriving DecidableEq

/-- JavaScript truthiness of `linkContentType` as tested by
`({ linkContentType }) => !!linkContentType`: absent and the empty string
are falsy; any array (even empty) is truthy. -/
def lctTruthy : Option LinkContentTypeValue → Bool
  | none => false
  | some (LinkContentTypeValue.one s) => s ≠ ""
  | some (LinkContentTypeValue.many _) => true

/-- One field declaration of a content type, with the properties the source
reads: `id`, `type`, `required`, `disabled`, `omitted`, `items`,
`linkType`, `validations`.  Properties that may be absent are `Option`. -/
inductive FieldDefinition where
  | mk (id : Option String) (type : String) (required : Bool) (disabled : Bool)
       (omitted : Bool) (items : Option FieldDefinition) (linkType : Option String)
       (validations : Option (List Validation))

def FieldDefinition.id : FieldDefinition → Option String
  | FieldDefinition.mk i _ _ _ _ _ _ _ => i

def FieldDefinition.type : FieldDefinition → String
  | FieldDefinition.mk _ t _ _ _ _ _ _ => t

def FieldDefinition.required : FieldDefinition → Bool
  | FieldDefinition.mk _ _ r _ _ _ _ _ => r

def FieldDefinition.disabled : FieldDefinition → Bool
  | FieldDefinition.mk _ _ _ d _ _ _ _ => d

def FieldDefinition.omitted : FieldDefinition → Bool
  | FieldDefinition.mk _ _ _ _ o _ _ _ => o

def FieldDefinition.items : FieldDefinition → Option FieldDefinition
  | FieldDefinition.mk _ _ _ _ _ it _ _ => it

def FieldDefinition.linkType : FieldDefinition → Option String
  | FieldDefinition.mk _ _ _ _ _ _ lt _ => lt

def FieldDefinition.validations : FieldDefinition → Option (List Validation)
  | FieldDefinition.mk _ _ _ _ _ _ _ v => v

/-- Extensions attached to a type descriptor: the `link` extension
`{by, from}` of reference fields and the `dateformat` extension of dates. -/
inductive FieldExtensions where
  | link (linkBy : String) (linkFrom : String)
  | dateformat
deriving DecidableEq

/-- A translated type descriptor `{type, extensions?}`. -/
structure TypeDescriptor where
  type : String
  extensions : Option FieldExtensions
deriving DecidableEq

/-- Uppercase the first character of a string. -/
def upperFirst (s : String) : String :=
  match s.data with
  | [] => ""
  | c :: cs => String.mk (Char.toUpper c :: cs)

/-- Modelled from the spec: `makeTypeName` is imported from `./normalize`,
which is not under src/.  Per the spec it is the shared type-name
translation for content types: it normalizes a content-type name and
applies a prefix policy — the full variant uses the `Contentful` prefix
(`makeTypeName(typeName)`), the compact variant an empty prefix
(`makeTypeName(typeName, "")`).  Normalization is modelled as capitalizing
the first letter of the name. -/
def makeTypeName (pre : String) (typeName : String) : String :=
  pre ++ upperFirst typeName

/-- One declaration handed to the external `createTypes` interface.
Fixed boilerplate declarations (the template-literal interface and object
types and the rich-text / location / text helper object types, whose
resolver bodies call external collaborators and carry no translation
logic) are recorded by name only. -/
inductive CreatedType where
  | fixed (name : String)
  | union (name : String) (types : List String)
  | object (name : String) (fields : List (String × TypeDescriptor)) (interfaces : List String)
deriving DecidableEq

/-- The mutable module state of the schema generator: the module-global
`unionsNameSet` (insertion-ordered set of union type names registered so
far in the process) and the ordered stream of declarations passed to
`createTypes`. -/
structure SchemaState where
  unionsNameSet : List String
  createdTypes : List CreatedType
deriving DecidableEq

/-- The fixed table `ContentfulDataTypes` mapping primitive field kinds to
descriptor builders. -/
def ContentfulDataTypes : List (String × (FieldDefinition → TypeDescriptor)) :=
  [ ("Symbol", fun _ => { type := "String", extensions := none }),
    ("Text", fun field =>
      { type := "ContentfulNodeTypeText",
        extensions := some (FieldExtensions.link "id" (jsStr field.id ++ "___NODE")) }),
    ("Integer", fun _ => { type := "Int", extensions := none }),
    ("Number", fun _ => { type := "Float", extensions := none }),
    ("Date", fun _ => { type := "Date", extensions := some FieldExtensions.dateformat }),
    ("Object", fun _ => { type := "JSON", extensions := none }),
    ("Boolean", fun _ => { type := "Boolean", extensions := none }),
    ("Location", fun _ => { type := "ContentfulNodeTypeLocation", extensions := none }),
    ("RichText", fun _ => { type := "ContentfulNodeTypeRichText", extensions := none }) ]

/-- Failures of the field translator.  `unknownFieldType` models the
TypeError raised by `ContentfulDataTypes.get(field.type)(field)` when the
kind has no table entry (the spec calls it `UnknownFieldTypeError`);
`missingItems` models the TypeError raised by reading `field.items.type`
when an Array field has no `items`. -/
inductive TranslateError where
  | unknownFieldType (kind : String)
  | missingItems
deriving DecidableEq

/-- The message carried by the modelled TypeError. -/
def translateErrorMessage : TranslateError → String
  | TranslateError.unknownFieldType _ => "ContentfulDataTypes.get(...) is not a function"
  | TranslateError.missingItems => "Cannot read properties of undefined"

/-- The source function `getLinkFieldType(linkType, field, schema,
createTypes)`.  It reads `field?.items?.validations`, searches them for a
truthy `linkContentType`, and returns either the single translated type,
a deduplicated union, or the generic `Contentful<linkType>` fallback; union
registration mutates `unionsNameSet` and emits one `createTypes` call. -/
def getLinkFieldType (linkType : Option String) (field : FieldDefinition)
    (st : SchemaState) : TypeDescriptor × SchemaState :=
  match field.items.bind FieldDefinition.validations with
  | some validations =>
    match validations.find? (fun v => lctTruthy v.linkContentType) with
    | some v =>
      let contentTypes : List String :=
        match v.linkContentType with
        | some (LinkContentTypeValue.many l) => l
        | some (LinkContentTypeValue.one s) => [s]
        | none => []
      let translatedTypeNames := contentTypes.map (makeTypeName "Contentful")
      let shortTypeNames := contentTypes.map (makeTypeName "")
      match translatedTypeNames with
      | [single] =>
        ({ type := single,
           extensions := some (FieldExtensions.link "id" (jsStr field.id ++ "___NODE")) }, st)
      | _ =>
        let unionName := String.join ("UnionContentful" :: shortTypeNames)
        let st2 :=
          if st.unionsNameSet.contains unionName then st
          else { unionsNameSet := st.unionsNameSet ++ [unionName],
                 createdTypes := st.createdTypes ++ [CreatedType.union unionName translatedTypeNames] }
        ({ type := unionName,
           extensions := some (FieldExtensions.link "id" (jsStr field.id ++ "___NODE")) }, st2)
    | none =>
      ({ type := "Contentful" ++ jsStr linkType,
         extensions := some (FieldExtensions.link "id" (jsStr field.id ++ "___NODE")) }, st)
  | none =>
    ({ type := "Contentful" ++ jsStr linkType,
       extensions := some (FieldExtensions.link "id" (jsStr field.id ++ "___NODE")) }, st)

/-- The source function `translateFieldType(field, schema, createTypes)`:
dispatch on Array / Link / primitive kind, then apply the required marker
to the resulting type expression. -/
def translateFieldType : FieldDefinition → SchemaState →
    Except TranslateError (TypeDescriptor × SchemaState)
  | f@(FieldDefinition.mk _ ftype freq _ _ fitems _ _), st =>
    let res : Except TranslateError (TypeDescriptor × SchemaState) :=
      if ftype = "Array" then
        match fitems with
        | none => Except.error TranslateError.missingItems
        | some items =>
          let inner : Except TranslateError (TypeDescriptor × SchemaState) :=
            if items.type = "Link" then Except.ok (getLinkFieldType items.linkType f st)
            else translateFieldType items st
          match inner with
          | Except.error e => Except.error e
          | Except.ok (fieldData, st2) =>
            Except.ok ({ fieldData with type := "[" ++ fieldData.type ++ "]" }, st2)
      else if ftype = "Link" then Except.ok (getLinkFieldType f.linkType f st)
      else
        match List.lookup ftype ContentfulDataTypes with
        | some handler => Except.ok (handler f, st)
        | none => Except.error (TranslateError.unknownFieldType ftype)
    match res with
    | Except.error e => Except.error e
    | Except.ok (fieldType, st2) =>
      Except.ok ((if freq then { fieldType with type := fieldType.type ++ "!" } else fieldType), st2)

/-- One content type of the model: `sys.id`, display `name` (possibly
absent), and its ordered field declarations. -/
structure ContentTypeItem where
  sysId : String
  name : Option String
  fields : List FieldDefinition

/-- The display name used in the error annotation:
`contentTypeItem.name || contentTypeItem.sys.id` (JavaScript truthiness,
so an empty name also falls back to the identifier). -/
def displayName (item : ContentTypeItem) : String :=
  match item.name with
  | some n => if n ≠ "" then n else item.sysId
  | none => item.sysId

/-- An error escaping `generateSchema`, carrying the annotated message. -/
structure SchemaError where
  message : String
deriving DecidableEq

/-- JavaScript object property assignment `fields[field.id] = v` on an
insertion-ordered object: an existing key keeps its position and gets the
new value, a new key is appended. -/
def objSet (m : List (String × TypeDescriptor)) (k : String) (v : TypeDescriptor) :
    List (String × TypeDescriptor) :=
  if m.any (fun kv => kv.1 = k) then m.map (fun kv => if kv.1 = k then (k, v) else kv)
  else m ++ [(k, v)]

/-- The `contentTypeItem.fields.forEach` loop of `generateSchema`: skip
disabled or omitted fields, translate the rest, and assign into the
`fields` object keyed by `field.id`. -/
def fieldsFold : List FieldDefinition → SchemaState → List (String × TypeDescriptor) →
    Except TranslateError (List (String × TypeDescriptor) × SchemaState)
  | [], st, acc => Except.ok (acc, st)
  | field :: rest, st, acc =>
    if field.disabled || field.omitted then fieldsFold rest st acc
    else
      match translateFieldType field st with
      | Except.error e => Except.error e
      | Except.ok (d, st2) => fieldsFold rest st2 (objSet acc (jsStr field.id) d)

/-- The fixed declarations `generateSchema` emits before the content-type
loop (generic interfaces, sys types, asset, rich-text helpers, location,
text), recorded by name. -/
def schemaPrelude : List CreatedType :=
  [ CreatedType.fixed "ContentfulInternalReference",
    CreatedType.fixed "ContentfulContentType",
    CreatedType.fixed "ContentfulInternalSys",
    CreatedType.fixed "ContentfulEntry",
    CreatedType.fixed "ContentfulAsset",
    CreatedType.fixed "ContentfulNodeTypeRichTextAssets",
    CreatedType.fixed "ContentfulNodeTypeRichTextEntries",
    CreatedType.fixed "ContentfulNodeTypeRichTextLinks",
    CreatedType.fixed "ContentfulNodeTypeRichText",
    CreatedType.fixed "ContentfulNodeTypeLocation",
    CreatedType.fixed "ContentfulNodeTypeText" ]

/-- The `for (const contentTypeItem of contentTypeItems)` loop of
`generateSchema` with its try/catch: translate the enabled fields, emit the
object type (identity and sys fields first, then the translated field map
spread over them), and on any error annotate the message with the content
type display name and re-raise, aborting the remaining items. -/
def contentTypesLoop (useNameForId : Bool) :
    List ContentTypeItem → SchemaState → Except SchemaError SchemaState
  | [], st => Except.ok st
  | item :: rest, st =>
    match fieldsFold item.fields st [] with
    | Except.error e =>
      Except.error
        { message := "Unable to create schema for Contentful Content Type " ++
            displayName item ++ ":\n" ++ translateErrorMessage e }
    | Except.ok (fields, st2) =>
      let typeSource := if useNameForId then jsStr item.name else item.sysId
      let objFields :=
        fields.foldl (fun m kv => objSet m kv.1 kv.2)
          [ ("id", { type := "ID!", extensions := none }),
            ("sys", { type := "ContentfulInternalSys", extensions := none }) ]
      contentTypesLoop useNameForId rest
        { st2 with createdTypes := st2.createdTypes ++
            [CreatedType.object (makeTypeName "Contentful" typeSource) objFields
              ["ContentfulInternalReference", "ContentfulEntry", "Node"]] }

/-- The exported `generateSchema`: emit the fixed declarations, then run
the content-type loop.  `unions0` is the content of the module-global
`unionsNameSet` at entry (it persists across calls in one process). -/
def generateSchema (useNameForId : Bool) (contentTypeItems : List ContentTypeItem)
    (unions0 : List String) : Except SchemaError SchemaState :=
  contentTypesLoop useNameForId contentTypeItems
    { unionsNameSet := unions0, createdTypes := schemaPrelude }

/-- Extraction helper used to state the link-translation claims: the list
of content-type names constrained by the first truthy `linkContentType`
validation found on `field.items.validations`, exactly as
`getLinkFieldType` reads them, or `none` when the fallback applies. -/
def fieldLinkContentTypes (field : FieldDefinition) : Option (List String) :=
  match field.items.bind FieldDefinition.validations with
  | some validations =>
    match validations.find? (fun v => lctTruthy v.linkContentType) with
    | some v =>
      some (match v.linkContentType with
        | some (LinkContentTypeValue.many l) => l
        | some (LinkContentTypeValue.one s) => [s]
        | none => [])
    | none => none
  | none => none

/-- Specification-side array rule of claim C6: take the translation of the
element declaration, wrap its type expression once in brackets, then apply
the required marker iff `r`. -/
def wrapThenRequire (r : Bool) (inner : Except TranslateError (TypeDescriptor × SchemaState)) :
    Except TranslateError (TypeDescriptor × SchemaState) :=
  match inner with
  | Except.error e => Except.error e
  | Except.ok (d, st) =>
    let wrapped := "[" ++ d.type ++ "]"
    Except.ok ({ d with type := if r then wrapped ++ "!" else wrapped }, st)

/-! ## Lemmas about the cascaded context -/

/-- Characterization of the JavaScript prefix test in terms of list
prefixes. -/
lemma jsStartsWith_iff (s pre : String) : jsStartsWith s pre = true ↔ pre.data <+: s.data := by
  unfold jsStartsWith
  exact List.isPrefixOf_iff_prefix

/-- A string is nonempty iff its character list is. -/
lemma str_ne_empty_iff (s : String) : s ≠ "" ↔ s.data ≠ [] := by
  constructor
  · intro h hd
    exact h (String.ext hd)
  · intro h he
    rw [he] at h
    exact h rfl

/-- A nonempty string has positive length. -/
lemma str_length_pos (s : String) (h : s ≠ "") : 0 < s.length := by
  have hd := (str_ne_empty_iff s).mp h
  have : s.data ≠ [] := hd
  cases hl : s.data with
  | nil => exact absurd hl this
  | cons c cs =>
    show 0 < s.data.length
    rw [hl]
    exact Nat.succ_pos _

/-- Appending to a nonempty string on the left stays nonempty. -/
lemma str_append_ne_empty_left (a b : String) (h : a ≠ "") : a ++ b ≠ "" := by
  rw [str_ne_empty_iff] at h ⊢
  rw [String.data_append]
  intro hc
  exact h (List.append_eq_nil.mp hc).1

/-- Two prefixes of the same string with equal length are equal. -/
lemma startsWith_eq_of_length (t p q : String) (hp : jsStartsWith t p = true)
    (hq : jsStartsWith t q = true) (hl : p.length = q.length) : p = q := by
  rw [jsStartsWith_iff] at hp hq
  apply String.ext
  have hpq : p.data <+: q.data :=
    List.prefix_of_prefix_length_le hp hq (Nat.le_of_eq hl)
  exact List.IsPrefix.eq_of_length hpq hl

/-- If every prefix of `target` in the remaining keys is no longer than the
current match length, the loop keeps its current match. -/
lemma flpGo_keep (target : String) :
    ∀ (ps : List String) (m : Option String) (len : Nat),
      (∀ q ∈ ps, jsStartsWith target q = true → q.length ≤ len) →
      flpGo target ps m len = m := by
  intro ps
  induction ps with
  | nil => intro m len _; rfl
  | cons q rest ih =>
    intro m len h
    unfold flpGo
    by_cases hc : jsStartsWith target q = true ∧ len < q.length
    · have := h q (List.mem_cons_self _ _) hc.1
      omega
    · rw [if_neg hc]
      exact ih m len (fun r hr hs => h r (List.mem_cons_of_mem _ hr) hs)

/-- If `p` is a prefix of `target` in the list, strictly longer than the
current match length, and no prefix in the list is longer, the loop ends
with `p`. -/
lemma flpGo_best (target : String) :
    ∀ (ps : List String) (m : Option String) (len : Nat) (p : String),
      jsStartsWith target p = true → p ∈ ps → len < p.length →
      (∀ q ∈ ps, jsStartsWith target q = true → q.length ≤ p.length) →
      flpGo target ps m len = some p := by
  intro ps
  induction ps with
  | nil => intro m len p _ hmem; cases hmem
  | cons q rest ih =>
    intro m len p hsw hmem hlen hbound
    unfold flpGo
    by_cases hc : jsStartsWith target q = true ∧ len < q.length
    · rw [if_pos hc]
      by_cases hqp : q = p
      · subst hqp
        exact flpGo_keep target rest (some q) q.length
          (fun r hr hs => hbound r (List.mem_cons_of_mem _ hr) hs)
      · have hpmem : p ∈ rest := by
          rcases List.mem_cons.mp hmem with h1 | h2
          · exact absurd h1.symm hqp
          · exact h2
        have hqle : q.length ≤ p.length := hbound q (List.mem_cons_self _ _) hc.1
        have hqlt : q.length < p.length :=
          Nat.lt_of_le_of_ne hqle (fun he => hqp (startsWith_eq_of_length target q p hc.1 hsw he))
        exact ih (some q) q.length p hsw hpmem hqlt
          (fun r hr hs => hbound r (List.mem_cons_of_mem _ hr) hs)
    · rw [if_neg hc]
      have hpq : p ≠ q := by
        intro he
        exact hc (by rw [← he]; exact ⟨hsw, hlen⟩)
      have hpmem : p ∈ rest := by
        rcases List.mem_cons.mp hmem with h1 | h2
        · exact absurd h1 hpq
        · exact h2
      exact ih m len p hsw hpmem hlen
        (fun r hr hs => hbound r (List.mem_cons_of_mem _ hr) hs)

instance {ε α : Type} [DecidableEq ε] [DecidableEq α] : DecidableEq (Except ε α) := fun a b =>
  match a, b with
  | Except.ok x, Except.ok y =>
    if h : x = y then isTrue (by rw [h]) else isFalse (by intro hc; cases hc; exact h rfl)
  | Except.error x, Except.error y =>
    if h : x = y then isTrue (by rw [h]) else isFalse (by intro hc; cases hc; exact h rfl)
  | Except.ok _, Except.error _ => isFalse (by intro hc; cases hc)
  | Except.error _, Except.ok _ => isFalse (by intro hc; cases hc)

deriving instance DecidableEq for CascadedContext

/-- C2, counterexample: the claim fails for a stored empty-string path key.
After `set` on a root node whose key is the empty string, the stored key
`""` is the stored prefix of the path `"z"` with the greatest length and it
holds the value `1`, yet `get` returns the default `0`: the loop only
replaces its match on a strictly positive length, so an empty stored key
never matches. -/
theorem cascadedContext_empty_key_cex :
    CascadedContext.set ({ cascadeMap := [], defaultValue := 0 } : CascadedContext Nat)
        (some (PathNode.root (some ""))) 1 =
      Except.ok { cascadeMap := [("", 1)], defaultValue := 0 } ∧
    jsStartsWith "z" "" = true ∧
    (∀ q ∈ ([""] : List String), jsStartsWith "z" q = true → q.length ≤ "".length) ∧
    mapGet [("", 1)] "" = some (1 : Nat) ∧
    CascadedContext.get ({ cascadeMap := [("", 1)], defaultValue := 0 } : CascadedContext Nat)
        (some (PathNode.root (some "z"))) = Except.ok 0 ∧
    (0 : Nat) ≠ 1 := by decide

/-- C2 (amended): for every context and node whose path computes to
`target`, `get` returns the value stored under the stored key that is a
nonempty string-prefix of `target` of greatest length among matching keys;
when every matching stored key is empty (in particular when none matches),
`get` returns the configured default.  (The claim as frozen fails only for
a stored empty-string key, see the counterexample.) -/
theorem cascadedContext_get_longest_nonempty_match {α : Type} (ctx : CascadedContext α)
    (infoPath : Option PathNode) (target : String)
    (h : getPath infoPath = Except.ok target) :
    (∀ p v, p ∈ ctx.cascadeMap.map Prod.fst → jsStartsWith target p = true → p ≠ "" →
        (∀ q ∈ ctx.cascadeMap.map Prod.fst, jsStartsWith target q = true → q.length ≤ p.length) →
        mapGet ctx.cascadeMap p = some v → ctx.get infoPath = Except.ok v) ∧
    ((∀ q ∈ ctx.cascadeMap.map Prod.fst, jsStartsWith target q = true → q = "") →
        ctx.get infoPath = Except.ok ctx.defaultValue) := by
  constructor
  · intro p v hmem hsw hne hbound hget
    have hflp : findLongestPrefix target (ctx.cascadeMap.map Prod.fst) = some p :=
      flpGo_best target _ none 0 p hsw hmem (str_length_pos p hne) hbound
    unfold CascadedContext.get
    simp only [h, hflp, hget]
    simp [hne]
  · intro hall
    have hflp : findLongestPrefix target (ctx.cascadeMap.map Prod.fst) = none := by
      apply flpGo_keep
      intro q hq hs
      rw [hall q hq hs]
      exact Nat.le_refl 0
    unfold CascadedContext.get
    simp only [h, hflp]

/-- Witness for C2 (amended), on the example of the claim: with `"a:b"`
stored as `1` and `"a:b:c"` stored as `2`, `get` of the node with path
`"a:b:c:d"` returns `2`. -/
theorem cascadedContext_get_longest_nonempty_match_witness :
    CascadedContext.get
        ({ cascadeMap := [("a:b", 1), ("a:b:c", 2)], defaultValue := 0 } : CascadedContext Nat)
        (some (PathNode.cons (some "d") (PathNode.cons (some "c")
          (PathNode.cons (some "b") (PathNode.root (some "a")))))) = Except.ok 2 :=
  (cascadedContext_get_longest_nonempty_match
      ({ cascadeMap := [("a:b", 1), ("a:b:c", 2)], defaultValue := 0 } : CascadedContext Nat)
      (some (PathNode.cons (some "d") (PathNode.cons (some "c")
        (PathNode.cons (some "b") (PathNode.root (some "a")))))) "a:b:c:d" (by decide)).1
    "a:b:c" 2 (by decide) (by decide) (by decide) (by decide) (by decide)

/-- Appending a nonempty string on the right stays nonempty. -/
lemma str_append_ne_empty_right (a b : String) (h : b ≠ "") : a ++ b ≠ "" := by
  rw [str_ne_empty_iff] at h ⊢
  rw [String.data_append]
  intro hc
  exact h (List.append_eq_nil.mp hc).2

/-- A string with a nonempty prefix is nonempty. -/
lemma str_of_prefix_ne (u s : String) (hu : u ≠ "") (hp : u.data <+: s.data) : s ≠ "" := by
  rw [str_ne_empty_iff] at hu ⊢
  intro hc
  rw [hc] at hp
  exact hu (List.prefix_nil.mp hp)

/-- Truthiness of a present string is nonemptiness. -/
lemma jsTruthyStr_some_iff (s : String) : jsTruthyStr (some s) = true ↔ s ≠ "" := by
  simp [jsTruthyStr]

/-- A truthy key renders to a nonempty string. -/
lemma keyStr_ne_of_truthy (k : Option String) (h : jsTruthyStr k = true) : keyStr k ≠ "" := by
  cases k with
  | none => simp [jsTruthyStr] at h
  | some s => exact (jsTruthyStr_some_iff s).mp h

/-- String append is associative. -/
lemma str_append_assoc (a b c : String) : a ++ b ++ c = a ++ (b ++ c) := by
  apply String.ext
  simp [String.data_append]

/-- On a chain whose keys are all defined and nonempty, the accumulator
recursion of `getPath` computes the root-first join (with a truthy
accumulator appended after a separating colon). -/
lemma getPathGo_join (p : PathNode) : goodKeys p = true → ∀ acc : Option String,
    getPathGo p acc =
      if jsTruthyStr acc then joinRootFirst p ++ ":" ++ acc.getD "" else joinRootFirst p := by
  induction p with
  | root k =>
    intro _ acc
    cases hacc : jsTruthyStr acc <;> simp [getPathGo, pathStep, joinRootFirst, hacc]
  | cons k prev ih =>
    intro hp acc
    rw [show goodKeys (PathNode.cons k prev) = (jsTruthyStr k && goodKeys prev) from rfl] at hp
    simp only [Bool.and_eq_true] at hp
    have hk : jsTruthyStr k = true := hp.1
    have hprev : goodKeys prev = true := hp.2
    have hkeyne : keyStr k ≠ "" := keyStr_ne_of_truthy k hk
    have hstep_ne : pathStep k acc ≠ "" := by
      unfold pathStep
      cases hacc : jsTruthyStr acc
      · simp [hacc, hkeyne]
      · simp only [hacc, if_true]
        exact str_append_ne_empty_left _ _ (str_append_ne_empty_left _ _ hkeyne)
    have hstep : jsTruthyStr (some (pathStep k acc)) = true :=
      (jsTruthyStr_some_iff _).mpr hstep_ne
    rw [show getPathGo (PathNode.cons k prev) acc = getPathGo prev (some (pathStep k acc)) from rfl]
    rw [ih hprev (some (pathStep k acc))]
    rw [if_pos hstep]
    show joinRootFirst prev ++ ":" ++ pathStep k acc = _
    cases hacc : jsTruthyStr acc
    · simp only [pathStep, hacc, if_false, Bool.false_eq_true]
      rfl
    · simp only [pathStep, hacc, if_true]
      apply String.ext
      simp [joinRootFirst, String.data_append]

/-- On a good-keyed chain, `getPath`'s recursion with the initial
(undefined, hence falsy) accumulator computes exactly the root-first
join. -/
lemma getPathGo_none_join (p : PathNode) (hp : goodKeys p = true) :
    getPathGo p none = joinRootFirst p := by
  rw [getPathGo_join p hp none]
  rfl

/-- C3, counterexample: for the chain leaf `"c"` → `"b"` → root `"a"`, the
computed path is `"a:b:c"` (root key leftmost), not the leaf-first join
`"c:b:a"` stated by the claim. -/
theorem getPath_leaf_first_cex :
    getPath (some (PathNode.cons (some "c") (PathNode.cons (some "b")
        (PathNode.root (some "a"))))) = Except.ok "a:b:c" ∧
    specLeafFirstJoin (PathNode.cons (some "c") (PathNode.cons (some "b")
        (PathNode.root (some "a")))) = "c:b:a" ∧
    ("a:b:c" : String) ≠ "c:b:a" := by decide

/-- C3 (amended): for every chain whose keys are all defined and nonempty,
the computed path string is the chain's keys joined with ":" reading
root-key : … : leaf-key — the most specific segment is rightmost (ancestor
keys are prepended on the left as the walk climbs `prev` links). -/
theorem getPath_joins_root_key_leftmost (p : PathNode) (hp : goodKeys p = true) :
    getPath (some p) = Except.ok (joinRootFirst p) := by
  show Except.ok (getPathGo p none) = _
  rw [getPathGo_none_join p hp]

/-- Witness for C3 (amended) on the chain `"c"` → `"b"` → `"a"`. -/
theorem getPath_joins_root_key_leftmost_witness :
    goodKeys (PathNode.cons (some "c") (PathNode.cons (some "b")
        (PathNode.root (some "a")))) = true ∧
    getPath (some (PathNode.cons (some "c") (PathNode.cons (some "b")
        (PathNode.root (some "a"))))) =
      Except.ok (joinRootFirst (PathNode.cons (some "c") (PathNode.cons (some "b")
        (PathNode.root (some "a"))))) :=
  ⟨by decide, getPath_joins_root_key_leftmost _ (by decide)⟩

/-- The accumulator survives as a suffix of the final path string: once the
accumulated string is nonempty, every further step prepends text on its
left only. -/
lemma getPathGo_acc_suffix (p : PathNode) :
    ∀ acc : String, acc ≠ "" → acc.data <:+ (getPathGo p (some acc)).data := by
  induction p with
  | root k =>
    intro acc hacc
    have ht : jsTruthyStr (some acc) = true := (jsTruthyStr_some_iff acc).mpr hacc
    simp only [getPathGo, pathStep, ht, if_true]
    rw [String.data_append]
    exact List.suffix_append _ _
  | cons k prev ih =>
    intro acc hacc
    have ht : jsTruthyStr (some acc) = true := (jsTruthyStr_some_iff acc).mpr hacc
    simp only [getPathGo, pathStep, ht, if_true]
    have hne : keyStr k ++ ":" ++ acc ≠ "" := str_append_ne_empty_right _ _ hacc
    have h2 : acc.data <:+ (keyStr k ++ ":" ++ acc).data := by
      rw [String.data_append]
      exact List.suffix_append _ _
    exact h2.trans (ih (keyStr k ++ ":" ++ acc) hne)

/-- If some key of the chain is undefined, the text `undefined` occurs in
the computed path string, whatever the accumulator. -/
lemma getPathGo_undefined_mem (p : PathNode) :
    ∀ acc : Option String, hasNoneKey p = true →
      "undefined".data <:+: (getPathGo p acc).data := by
  induction p with
  | root k =>
    intro acc h
    have hk : k = none := by
      cases k with
      | none => rfl
      | some s => simp [hasNoneKey] at h
    subst hk
    cases hacc : jsTruthyStr acc
    · simp only [getPathGo, pathStep, hacc, if_false, Bool.false_eq_true]
      exact List.infix_refl _
    · simp only [getPathGo, pathStep, hacc, if_true]
      apply List.IsPrefix.isInfix
      rw [show keyStr none = "undefined" from rfl]
      rw [String.data_append, String.data_append, List.append_assoc]
      exact List.prefix_append _ _
  | cons k prev ih =>
    intro acc h
    rw [show hasNoneKey (PathNode.cons k prev) = (k.isNone || hasNoneKey prev) from rfl] at h
    simp only [Bool.or_eq_true] at h
    rcases h with hk | hprev
    · have hk2 : k = none := by
        cases k with
        | none => rfl
        | some s => simp at hk
      subst hk2
      have hpre : "undefined".data <+: (pathStep none acc).data := by
        cases hacc : jsTruthyStr acc
        · simp only [pathStep, hacc, if_false, Bool.false_eq_true]
          rw [show keyStr none = "undefined" from rfl]
        · simp only [pathStep, hacc, if_true]
          rw [show keyStr none = "undefined" from rfl]
          rw [String.data_append, String.data_append, List.append_assoc]
          exact List.prefix_append _ _
      have hne : pathStep none acc ≠ "" := str_of_prefix_ne "undefined" _ (by decide) hpre
      have hsuf := getPathGo_acc_suffix prev (pathStep none acc) hne
      exact ( List.IsPrefix.isInfix hpre).trans ( List.IsSuffix.isInfix hsuf)
    · exact ih (some (pathStep k acc)) hprev

/-- C4, counterexample: a chain containing a node with an undefined key
does not fail — `getPath` only guards against the whole path object being
undefined — and the computed path contains the placeholder segment
`undefined` for the missing key. -/
theorem getPath_undefined_key_no_error_cex :
    hasNoneKey (PathNode.cons (some "b") (PathNode.root none)) = true ∧
    getPath (some (PathNode.cons (some "b") (PathNode.root none))) =
      Except.ok "undefined:b" := by decide

/-- C4 (amended): for every chain in which some node has an undefined key,
computing the path succeeds (no error is raised) and the resulting path
string contains the placeholder text `undefined` for the missing key; the
only failing input is an undefined path object itself, which raises
`path was undefined`. -/
theorem getPath_undefined_key_placeholder (p : PathNode) (h : hasNoneKey p = true) :
    (∃ s, getPath (some p) = Except.ok s ∧ "undefined".data <:+: s.data) ∧
    getPath none = Except.error "path was undefined" :=
  ⟨⟨getPathGo p none, rfl, getPathGo_undefined_mem p none h⟩, rfl⟩

/-- Witness for C4 (amended): the single-node chain with undefined key. -/
theorem getPath_undefined_key_placeholder_witness :
    hasNoneKey (PathNode.root none) = true ∧
    ((∃ s, getPath (some (PathNode.root none)) = Except.ok s ∧
        "undefined".data <:+: s.data) ∧
      getPath none = Except.error "path was undefined") :=
  ⟨by decide, getPath_undefined_key_placeholder (PathNode.root none) (by decide)⟩

/-- C5, counterexample: sibling keys whose spellings share a leading
character substring defeat the prefix encoding.  With root `"a"` and
siblings `"b"` and `"bc"`, the node `"b"` is not an ancestor of the node
`"bc"`, yet its path `"a:b"` is a string-prefix of `"a:bc"`; consequently
`get` on the `"bc"` node returns the value `1` that was set on the sibling
`"b"` node rather than the default `0`. -/
theorem sibling_key_substring_cex :
    ancestorOrSelf (PathNode.cons (some "b") (PathNode.root (some "a")))
        (PathNode.cons (some "bc") (PathNode.root (some "a"))) = false ∧
    getPath (some (PathNode.cons (some "b") (PathNode.root (some "a")))) =
      Except.ok "a:b" ∧
    getPath (some (PathNode.cons (some "bc") (PathNode.root (some "a")))) =
      Except.ok "a:bc" ∧
    jsStartsWith "a:bc" "a:b" = true ∧
    CascadedContext.set ({ cascadeMap := [], defaultValue := 0 } : CascadedContext Nat)
        (some (PathNode.cons (some "b") (PathNode.root (some "a")))) 1 =
      Except.ok { cascadeMap := [("a:b", 1)], defaultValue := 0 } ∧
    CascadedContext.get ({ cascadeMap := [("a:b", 1)], defaultValue := 0 } : CascadedContext Nat)
        (some (PathNode.cons (some "bc") (PathNode.root (some "a")))) = Except.ok 1 := by
  decide

/-- A falsy accumulator carries the empty string. -/
lemma getD_empty_of_not_truthy (c : Option String) (h : jsTruthyStr c = false) :
    c.getD "" = "" := by
  cases c with
  | none => rfl
  | some s =>
    have : s = "" := by simpa [jsTruthyStr] using h
    simpa using this

/-- One `getPath` step is monotone in the accumulator: viewing an absent
accumulator as the empty string, a prefix relation between two
accumulators is preserved, because the step only prepends the node key on
the left of the accumulated string (or drops a falsy, hence empty,
accumulator). -/
lemma pathStep_mono (k : Option String) (c1 c2 : Option String)
    (h : (c1.getD "").data <+: (c2.getD "").data) :
    (pathStep k c1).data <+: (pathStep k c2).data := by
  cases h1 : jsTruthyStr c1 with
  | true =>
    have hv1 : c1.getD "" ≠ "" := by
      cases c1 with
      | none => simp [jsTruthyStr] at h1
      | some s => simpa using (jsTruthyStr_some_iff s).mp h1
    cases h2 : jsTruthyStr c2 with
    | true =>
      simp only [pathStep, h1, h2, if_true]
      obtain ⟨t, ht⟩ := h
      refine ⟨t, ?_⟩
      simp only [String.data_append, List.append_assoc]
      rw [ht]
    | false =>
      exfalso
      rw [getD_empty_of_not_truthy c2 h2] at h
      have hnil : (c1.getD "").data = [] := List.prefix_nil.mp h
      exact hv1 (String.ext hnil)
  | false =>
    have he1 : pathStep k c1 = keyStr k := by
      simp only [pathStep, h1, if_false, Bool.false_eq_true]
    cases h2 : jsTruthyStr c2 with
    | true =>
      rw [he1]
      simp only [pathStep, h2, if_true]
      rw [String.data_append, String.data_append, List.append_assoc]
      exact List.prefix_append _ _
    | false =>
      rw [he1]
      simp only [pathStep, h2, if_false, Bool.false_eq_true]
      exact List.prefix_refl _

/-- The whole path computation is monotone in the accumulator, by walking
the chain and applying the one-step monotonicity at every node. -/
lemma getPathGo_mono (p : PathNode) : ∀ c1 c2 : Option String,
    (c1.getD "").data <+: (c2.getD "").data →
    (getPathGo p c1).data <+: (getPathGo p c2).data := by
  induction p with
  | root k =>
    intro c1 c2 h
    exact pathStep_mono k c1 c2 h
  | cons k prev ih =>
    intro c1 c2 h
    exact ih (some (pathStep k c1)) (some (pathStep k c2)) (pathStep_mono k c1 c2 h)

/-- C5 (amended): one direction of the claim holds for every pair of
chains — the path of an ancestor-or-self node is always a string-prefix of
the descendant's path, whatever the keys (defined, empty or undefined),
since each step only extends the accumulated string on the left.  The
converse is false (see the counterexample): a string-prefix match does not
imply ancestry when a sibling key is a leading character substring of
another key. -/
theorem ancestor_gives_path_startsWith (a b : PathNode) (pa pb : String)
    (hanc : ancestorOrSelf a b = true)
    (ha : getPath (some a) = Except.ok pa) (hb : getPath (some b) = Except.ok pb) :
    jsStartsWith pb pa = true := by
  have hpa : getPathGo a none = pa := by
    have := ha
    simp only [getPath, Except.ok.injEq] at this
    exact this
  have hpb : getPathGo b none = pb := by
    have := hb
    simp only [getPath, Except.ok.injEq] at this
    exact this
  subst hpa hpb
  clear ha hb
  induction b with
  | root k =>
    have : a = PathNode.root k := by
      have h2 : decide (a = PathNode.root k) = true := hanc
      exact of_decide_eq_true h2
    subst this
    rw [jsStartsWith_iff]
  | cons k prev ih =>
    rw [show ancestorOrSelf a (PathNode.cons k prev) =
        (decide (a = PathNode.cons k prev) || ancestorOrSelf a prev) from rfl] at hanc
    simp only [Bool.or_eq_true] at hanc
    rcases hanc with heq | hrec
    · have : a = PathNode.cons k prev := of_decide_eq_true heq
      subst this
      rw [jsStartsWith_iff]
    · have h1 : (getPathGo a none).data <+: (getPathGo prev none).data :=
        (jsStartsWith_iff _ _).mp (ih hrec)
      have h2 : (getPathGo prev none).data <+:
          (getPathGo prev (some (pathStep k none))).data :=
        getPathGo_mono prev none (some (pathStep k none)) ⟨(pathStep k none).data, rfl⟩
      rw [jsStartsWith_iff]
      exact h1.trans h2

/-- Witness for C5 (amended): the node `"b"` → `"a"` is an ancestor of
`"c"` → `"b"` → `"a"` and its path `"a:b"` is a prefix of `"a:b:c"`. -/
theorem ancestor_gives_path_startsWith_witness :
    jsStartsWith "a:b:c" "a:b" = true :=
  ancestor_gives_path_startsWith
    (PathNode.cons (some "b") (PathNode.root (some "a")))
    (PathNode.cons (some "c") (PathNode.cons (some "b") (PathNode.root (some "a"))))
    "a:b" "a:b:c" (by decide) (by decide) (by decide)

/-- The union type name derived from a member list: the fixed prefix joined
with each member's compact translated name in encountered order. -/
def unionNameOf (cts : List String) : String :=
  String.join ("UnionContentful" :: cts.map (makeTypeName ""))

/-- When the extracted content-type constraint names exactly one type, the
link translator returns that type's full translated name with the standard
link extension and touches no state. -/
lemma getLinkFieldType_single (lt : Option String) (f : FieldDefinition) (st : SchemaState)
    (c : String) (h : fieldLinkContentTypes f = some [c]) :
    getLinkFieldType lt f st =
      ({ type := makeTypeName "Contentful" c,
         extensions := some (FieldExtensions.link "id" (jsStr f.id ++ "___NODE")) }, st) := by
  unfold fieldLinkContentTypes at h
  unfold getLinkFieldType
  cases hv : f.items.bind FieldDefinition.validations with
  | none => simp [hv] at h
  | some validations =>
    cases hf : validations.find? (fun v => lctTruthy v.linkContentType) with
    | none => simp [hv, hf] at h
    | some v =>
      simp only [hv, hf, Option.some.injEq] at h ⊢
      simp only [h]
      rfl

/-- When the extracted content-type constraint names at least two types,
the link translator returns the union name and registers the union exactly
when its name is not yet in the registry. -/
lemma getLinkFieldType_multi (lt : Option String) (f : FieldDefinition) (st : SchemaState)
    (c1 c2 : String) (rest : List String)
    (h : fieldLinkContentTypes f = some (c1 :: c2 :: rest)) :
    getLinkFieldType lt f st =
      ({ type := unionNameOf (c1 :: c2 :: rest),
         extensions := some (FieldExtensions.link "id" (jsStr f.id ++ "___NODE")) },
       if st.unionsNameSet.contains (unionNameOf (c1 :: c2 :: rest)) then st
       else { unionsNameSet := st.unionsNameSet ++ [unionNameOf (c1 :: c2 :: rest)],
              createdTypes := st.createdTypes ++
                [CreatedType.union (unionNameOf (c1 :: c2 :: rest))
                  ((c1 :: c2 :: rest).map (makeTypeName "Contentful"))] }) := by
  unfold fieldLinkContentTypes at h
  unfold getLinkFieldType
  cases hv : f.items.bind FieldDefinition.validations with
  | none => simp [hv] at h
  | some validations =>
    cases hf : validations.find? (fun v => lctTruthy v.linkContentType) with
    | none => simp [hv, hf] at h
    | some v =>
      simp only [hv, hf, Option.some.injEq] at h ⊢
      simp only [h]
      rfl

/-- C1, counterexample: a non-array Link field that carries its
content-type validations on the field itself (in `field.validations`,
naming exactly the single type `blogPost`) is not given that type's
translated name: `getLinkFieldType` only reads
`field?.items?.validations`, finds nothing, and returns the generic
fallback `ContentfulEntry`. -/
theorem linkField_field_level_validations_ignored_cex :
    (FieldDefinition.mk (some "author") "Link" false false false none (some "Entry")
        (some [{ linkContentType := some (LinkContentTypeValue.one "blogPost") }])).validations =
      some [{ linkContentType := some (LinkContentTypeValue.one "blogPost") }] ∧
    getLinkFieldType (some "Entry")
        (FieldDefinition.mk (some "author") "Link" false false false none (some "Entry")
          (some [{ linkContentType := some (LinkContentTypeValue.one "blogPost") }]))
        { unionsNameSet := [], createdTypes := [] } =
      ({ type := "ContentfulEntry",
         extensions := some (FieldExtensions.link "id" "author___NODE") },
       { unionsNameSet := [], createdTypes := [] }) ∧
    ("ContentfulEntry" : String) ≠ makeTypeName "Contentful" "blogPost" := by decide

/-- C1 (amended): for every Link-kind field whose validations as read by
the translator — those attached on `field.items` — name exactly one content
type, the translator returns a descriptor whose type is that content
type's full translated name (not a union and not the generic fallback)
with `extensions.link = {by: "id", from: field.id + "___NODE"}`, and no
union is declared.  A non-array Link field carrying its validations on
`field.validations` instead gets the generic fallback (see the
counterexample). -/
theorem linkField_single_item_validation (lt : Option String) (f : FieldDefinition)
    (st : SchemaState) (c : String) (h : fieldLinkContentTypes f = some [c]) :
    getLinkFieldType lt f st =
      ({ type := makeTypeName "Contentful" c,
         extensions := some (FieldExtensions.link "id" (jsStr f.id ++ "___NODE")) }, st) :=
  getLinkFieldType_single lt f st c h

/-- Witness for C1 (amended): an array-of-links field `refs` whose items
carry one content-type validation naming `post`. -/
theorem linkField_single_item_validation_witness :
    getLinkFieldType (some "Entry")
        (FieldDefinition.mk (some "refs") "Array" false false false
          (some (FieldDefinition.mk none "Link" false false false none (some "Entry")
            (some [{ linkContentType := some (LinkContentTypeValue.one "post") }])))
          none none)
        { unionsNameSet := [], createdTypes := [] } =
      ({ type := makeTypeName "Contentful" "post",
         extensions := some (FieldExtensions.link "id"
          (jsStr (some "refs") ++ "___NODE")) },
       { unionsNameSet := [], createdTypes := [] }) :=
  linkField_single_item_validation (some "Entry") _ _ "post" (by decide)

/-- C7 (confirmed): translating two link fields whose item-level
validations name the same (two or more) content types declares the union
exactly once — the first translation registers the name and emits one
union declaration, the second leaves the state unchanged and reuses the
same union name. -/
theorem union_declared_once (lt1 lt2 : Option String) (f1 f2 : FieldDefinition)
    (st : SchemaState) (c1 c2 : String) (rest : List String)
    (h1 : fieldLinkContentTypes f1 = some (c1 :: c2 :: rest))
    (h2 : fieldLinkContentTypes f2 = some (c1 :: c2 :: rest))
    (hfresh : st.unionsNameSet.contains (unionNameOf (c1 :: c2 :: rest)) = false) :
    (getLinkFieldType lt1 f1 st).2.unionsNameSet =
      st.unionsNameSet ++ [unionNameOf (c1 :: c2 :: rest)] ∧
    (getLinkFieldType lt1 f1 st).2.createdTypes =
      st.createdTypes ++ [CreatedType.union (unionNameOf (c1 :: c2 :: rest))
        ((c1 :: c2 :: rest).map (makeTypeName "Contentful"))] ∧
    (getLinkFieldType lt2 f2 (getLinkFieldType lt1 f1 st).2).2 =
      (getLinkFieldType lt1 f1 st).2 ∧
    (getLinkFieldType lt2 f2 (getLinkFieldType lt1 f1 st).2).1.type =
      (getLinkFieldType lt1 f1 st).1.type := by
  rw [getLinkFieldType_multi lt1 f1 st c1 c2 rest h1]
  rw [hfresh]
  have hcontains :
      (st.unionsNameSet ++ [unionNameOf (c1 :: c2 :: rest)]).contains
        (unionNameOf (c1 :: c2 :: rest)) = true := by
    simp
  rw [getLinkFieldType_multi lt2 f2 _ c1 c2 rest h2]
  simp only [Bool.false_eq_true, if_false, hcontains, if_true]
  refine ⟨?_, ?_, ?_, ?_⟩ <;> trivial

/-- Witness for C7: two array-of-links fields both constrained to
`post`/`page`, translated in sequence from an empty registry. -/
theorem union_declared_once_witness :
    (getLinkFieldType (some "Entry")
        (FieldDefinition.mk (some "x") "Array" false false false
          (some (FieldDefinition.mk none "Link" false false false none (some "Entry")
            (some [{ linkContentType := some (LinkContentTypeValue.many ["post", "page"]) }])))
          none none)
        { unionsNameSet := [], createdTypes := [] }).2.unionsNameSet =
      [] ++ [unionNameOf ["post", "page"]] ∧
    (getLinkFieldType (some "Entry")
        (FieldDefinition.mk (some "x") "Array" false false false
          (some (FieldDefinition.mk none "Link" false false false none (some "Entry")
            (some [{ linkContentType := some (LinkContentTypeValue.many ["post", "page"]) }])))
          none none)
        { unionsNameSet := [], createdTypes := [] }).2.createdTypes =
      [] ++ [CreatedType.union (unionNameOf ["post", "page"])
        (["post", "page"].map (makeTypeName "Contentful"))] ∧
    (getLinkFieldType (some "Entry")
        (FieldDefinition.mk (some "y") "Array" false false false
          (some (FieldDefinition.mk none "Link" false false false none (some "Entry")
            (some [{ linkContentType := some (LinkContentTypeValue.many ["post", "page"]) }])))
          none none)
        (getLinkFieldType (some "Entry")
          (FieldDefinition.mk (some "x") "Array" false false false
            (some (FieldDefinition.mk none "Link" false false false none (some "Entry")
              (some [{ linkContentType := some (LinkContentTypeValue.many ["post", "page"]) }])))
            none none)
          { unionsNameSet := [], createdTypes := [] }).2).2 =
      (getLinkFieldType (some "Entry")
        (FieldDefinition.mk (some "x") "Array" false false false
          (some (FieldDefinition.mk none "Link" false false false none (some "Entry")
            (some [{ linkContentType := some (LinkContentTypeValue.many ["post", "page"]) }])))
          none none)
        { unionsNameSet := [], createdTypes := [] }).2 ∧
    (getLinkFieldType (some "Entry")
        (FieldDefinition.mk (some "y") "Array" false false false
          (some (FieldDefinition.mk none "Link" false false false none (some "Entry")
            (some [{ linkContentType := some (LinkContentTypeValue.many ["post", "page"]) }])))
          none none)
        (getLinkFieldType (some "Entry")
          (FieldDefinition.mk (some "x") "Array" false false false
            (some (FieldDefinition.mk none "Link" false false false none (some "Entry")
              (some [{ linkContentType := some (LinkContentTypeValue.many ["post", "page"]) }])))
            none none)
          { unionsNameSet := [], createdTypes := [] }).2).1.type =
      (getLinkFieldType (some "Entry")
        (FieldDefinition.mk (some "x") "Array" false false false
          (some (FieldDefinition.mk none "Link" false false false none (some "Entry")
            (some [{ linkContentType := some (LinkContentTypeValue.many ["post", "page"]) }])))
          none none)
        { unionsNameSet := [], createdTypes := [] }).1.type :=
  union_declared_once (some "Entry") (some "Entry") _ _ _ "post" "page" []
    (by decide) (by decide) (by decide)

/-- C6, counterexample: the array rule fails when the items are links.
For an array-of-links field `refs` whose items name the single content
type `post`, translating the array yields `[ContentfulPost]` with the
foreign key `refs___NODE` (the translator passes the outer field), while
translating the items declaration on its own and wrapping yields
`[ContentfulEntry]` with foreign key `undefined___NODE` (the items carry
no own `items.validations` and no own id). -/
theorem array_rule_link_items_cex :
    translateFieldType
        (FieldDefinition.mk (some "refs") "Array" false false false
          (some (FieldDefinition.mk none "Link" false false false none (some "Entry")
            (some [{ linkContentType := some (LinkContentTypeValue.one "post") }])))
          none none)
        { unionsNameSet := [], createdTypes := [] } =
      Except.ok ({ type := "[ContentfulPost]",
                   extensions := some (FieldExtensions.link "id" "refs___NODE") },
                 { unionsNameSet := [], createdTypes := [] }) ∧
    wrapThenRequire false
        (translateFieldType
          (FieldDefinition.mk none "Link" false false false none (some "Entry")
            (some [{ linkContentType := some (LinkContentTypeValue.one "post") }]))
          { unionsNameSet := [], createdTypes := [] }) =
      Except.ok ({ type := "[ContentfulEntry]",
                   extensions := some (FieldExtensions.link "id" "undefined___NODE") },
                 { unionsNameSet := [], createdTypes := [] }) ∧
    (Except.ok ({ type := "[ContentfulPost]",
                  extensions := some (FieldExtensions.link "id" "refs___NODE") },
                { unionsNameSet := [], createdTypes := [] }) :
      Except TranslateError (TypeDescriptor × SchemaState)) ≠
      Except.ok ({ type := "[ContentfulEntry]",
                   extensions := some (FieldExtensions.link "id" "undefined___NODE") },
                 { unionsNameSet := [], createdTypes := [] }) := by decide

/-- C6 (amended): for every array field whose items are not Link-typed,
translating the array equals translating the items declaration, wrapping
the resulting type expression exactly once in brackets, and then appending
the required marker iff the array is required — independently of whether
the items are themselves required.  For Link-typed items the translator
instead passes the outer field to the link translator (see the
counterexample). -/
theorem array_rule_non_link_items (fid : Option String) (r dis om : Bool)
    (X : FieldDefinition) (lt : Option String) (valids : Option (List Validation))
    (st : SchemaState) (hX : X.type ≠ "Link") :
    translateFieldType (FieldDefinition.mk fid "Array" r dis om (some X) lt valids) st =
      wrapThenRequire r (translateFieldType X st) := by
  conv_lhs => rw [translateFieldType]
  rw [if_pos rfl]
  rw [if_neg hX]
  cases htx : translateFieldType X st with
  | error e => rfl
  | ok p =>
    cases p with
    | mk d st2 =>
      cases r <;> rfl

/-- Witness for C6 (amended): a required array of required Symbol items
translates to `[String!]!`, the composition of both required markers. -/
theorem array_rule_non_link_items_witness :
    translateFieldType
        (FieldDefinition.mk (some "tags") "Array" true false false
          (some (FieldDefinition.mk (some "t") "Symbol" true false false none none none))
          none none)
        { unionsNameSet := [], createdTypes := [] } =
      wrapThenRequire true
        (translateFieldType (FieldDefinition.mk (some "t") "Symbol" true false false none none none)
          { unionsNameSet := [], createdTypes := [] }) ∧
    translateFieldType
        (FieldDefinition.mk (some "tags") "Array" true false false
          (some (FieldDefinition.mk (some "t") "Symbol" true false false none none none))
          none none)
        { unionsNameSet := [], createdTypes := [] } =
      Except.ok ({ type := "[String!]!", extensions := none },
                 { unionsNameSet := [], createdTypes := [] }) :=
  ⟨array_rule_non_link_items (some "tags") true false false
      (FieldDefinition.mk (some "t") "Symbol" true false false none none none)
      none none { unionsNameSet := [], createdTypes := [] } (by decide),
    by decide⟩

/-- A kind that is not among the table keys has no table entry. -/
lemma lookup_none_of_not_mem_keys {β : Type} (k : String) (l : List (String × β))
    (h : k ∉ l.map Prod.fst) : List.lookup k l = none := by
  induction l with
  | nil => rfl
  | cons kv rest ih =>
    cases kv with
    | mk a b =>
      have hk0 : a ≠ k := by
        intro he
        exact h (by rw [← he]; exact List.mem_cons_self _ _)
      have hrest : k ∉ rest.map Prod.fst := by
        intro hm
        exact h (List.mem_cons_of_mem _ hm)
      have hk : (k == a) = false := by
        rw [beq_eq_false_iff_ne]
        exact fun he => hk0 he.symm
      simp only [List.lookup, hk]
      exact ih hrest

/-- C8 (confirmed): a non-array, non-link field whose kind has no entry in
the fixed primitive table fails translation (modelling the TypeError from
calling the absent table entry, which the spec taxonomy names
`UnknownFieldTypeError`); there is no default or fallback descriptor. -/
theorem unknown_primitive_kind_fails (f : FieldDefinition) (st : SchemaState)
    (hA : f.type ≠ "Array") (hL : f.type ≠ "Link")
    (hU : f.type ∉ ContentfulDataTypes.map Prod.fst) :
    translateFieldType f st = Except.error (TranslateError.unknownFieldType f.type) := by
  have hU2 : List.lookup f.type ContentfulDataTypes = none :=
    lookup_none_of_not_mem_keys f.type ContentfulDataTypes hU
  cases f with
  | mk fid ftype freq fdis fom fitems flt fv =>
    simp only [FieldDefinition.type] at hA hL hU2 ⊢
    cases fitems with
    | none =>
      conv_lhs => rw [translateFieldType]
      rw [if_neg hA, if_neg hL, hU2]
    | some items =>
      conv_lhs => rw [translateFieldType]
      rw [if_neg hA, if_neg hL, hU2]

/-- Witness for C8: the kind `Slug` is not in the table and fails hard. -/
theorem unknown_primitive_kind_fails_witness :
    translateFieldType (FieldDefinition.mk (some "slug") "Slug" false false false none none none)
        { unionsNameSet := [], createdTypes := [] } =
      Except.error (TranslateError.unknownFieldType "Slug") :=
  unknown_primitive_kind_fails
    (FieldDefinition.mk (some "slug") "Slug" false false false none none none)
    { unionsNameSet := [], createdTypes := [] } (by decide) (by decide) (by decide)

/-- Rendering of a present string value. -/
lemma jsStr_some (s : String) : jsStr (some s) = s := rfl

/-- C9 (confirmed): any error raised while translating one content type's
fields makes the whole batch abort with that error, its message annotated
with the content type's display name (the name, falling back to the stable
identifier): the loop result is the annotated error regardless of the
remaining content types, so none of them is translated or emitted. -/
theorem content_type_error_annotated_aborts (useName : Bool) (item : ContentTypeItem)
    (rest : List ContentTypeItem) (st : SchemaState) (e : TranslateError)
    (h : fieldsFold item.fields st [] = Except.error e) :
    contentTypesLoop useName (item :: rest) st =
      Except.error
        { message := "Unable to create schema for Contentful Content Type " ++
                     displayName item ++ ":\n" ++ translateErrorMessage e } := by
  conv_lhs => rw [contentTypesLoop]
  simp only [h]

/-- Witness for C9: a content type with an unknown field kind aborts a
two-item batch with the annotated message. -/
theorem content_type_error_annotated_aborts_witness :
    contentTypesLoop true
        [{ sysId := "blog", name := some "Blog Post",
           fields := [FieldDefinition.mk (some "slug") "Slug" false false false none none none] },
         { sysId := "second", name := some "Second", fields := [] }]
        { unionsNameSet := [], createdTypes := [] } =
      Except.error
        { message := "Unable to create schema for Contentful Content Type " ++
                     displayName { sysId := "blog", name := some "Blog Post",
                                   fields := [FieldDefinition.mk (some "slug") "Slug"
                                     false false false none none none] } ++
                     ":\n" ++ translateErrorMessage (TranslateError.unknownFieldType "Slug") } :=
  content_type_error_annotated_aborts true _ _ _ (TranslateError.unknownFieldType "Slug")
    (by decide)

/-- C10 (confirmed): a content type declaring two enabled fields with the
same id raises no error; the emitted object type carries exactly one entry
for that id, holding the translation of the later field (last write wins in
the `fields[field.id] = …` assignment). -/
theorem duplicate_field_id_last_wins (useName : Bool) (sysId : String) (nm : Option String)
    (f1 f2 : FieldDefinition) (i : String) (st st1 st2 : SchemaState)
    (d1 d2 : TypeDescriptor)
    (hid1 : f1.id = some i) (hid2 : f2.id = some i)
    (hi1 : i ≠ "id") (hi2 : i ≠ "sys")
    (hdis1 : f1.disabled = false) (hom1 : f1.omitted = false)
    (hdis2 : f2.disabled = false) (hom2 : f2.omitted = false)
    (ht1 : translateFieldType f1 st = Except.ok (d1, st1))
    (ht2 : translateFieldType f2 st1 = Except.ok (d2, st2)) :
    contentTypesLoop useName [{ sysId := sysId, name := nm, fields := [f1, f2] }] st =
      Except.ok
        { unionsNameSet := st2.unionsNameSet,
          createdTypes := st2.createdTypes ++
            [CreatedType.object (makeTypeName "Contentful" (if useName then jsStr nm else sysId))
              [ ("id", { type := "ID!", extensions := none }),
                ("sys", { type := "ContentfulInternalSys", extensions := none }),
                (i, d2) ]
              ["ContentfulInternalReference", "ContentfulEntry", "Node"]] } := by
  have hobj1 : objSet [] (jsStr f1.id) d1 = [(i, d1)] := by
    rw [hid1, jsStr_some]
    simp [objSet]
  have hobj2 : objSet [(i, d1)] (jsStr f2.id) d2 = [(i, d2)] := by
    rw [hid2, jsStr_some]
    simp [objSet]
  have hff : fieldsFold [f1, f2] st [] = Except.ok ([(i, d2)], st2) := by
    conv_lhs => rw [fieldsFold]
    simp only [hdis1, hom1, Bool.or_self, Bool.false_eq_true, if_false, ht1, hobj1]
    conv_lhs => rw [fieldsFold]
    simp only [hdis2, hom2, Bool.or_self, Bool.false_eq_true, if_false, ht2, hobj2]
    rw [fieldsFold]
  have hne1 : ¬(("id" : String) = i) := fun he => hi1 he.symm
  have hne2 : ¬(("sys" : String) = i) := fun he => hi2 he.symm
  conv_lhs => rw [contentTypesLoop]
  simp only [hff]
  rw [contentTypesLoop]
  simp [objSet, hne1, hne2]

/-- Witness for C10: two enabled Symbol fields both with id `title`, the
first required and the second optional; the emitted object type holds one
`title` entry with the later field's translation `String`. -/
theorem duplicate_field_id_last_wins_witness :
    contentTypesLoop true
        [{ sysId := "post", name := some "Post",
           fields := [FieldDefinition.mk (some "title") "Symbol" true false false none none none,
                      FieldDefinition.mk (some "title") "Symbol" false false false none none none] }]
        { unionsNameSet := [], createdTypes := [] } =
      Except.ok
        { unionsNameSet := [],
          createdTypes :=
            [CreatedType.object (makeTypeName "Contentful" (if true then jsStr (some "Post") else "post"))
              [ ("id", { type := "ID!", extensions := none }),
                ("sys", { type := "ContentfulInternalSys", extensions := none }),
                ("title", { type := "String", extensions := none }) ]
              ["ContentfulInternalReference", "ContentfulEntry", "Node"]] } :=
  duplicate_field_id_last_wins true "post" (some "Post")
    (FieldDefinition.mk (some "title") "Symbol" true false false none none none)
    (FieldDefinition.mk (some "title") "Symbol" false false false none none none)
    "title"
    { unionsNameSet := [], createdTypes := [] }
    { unionsNameSet := [], createdTypes := [] }
    { unionsNameSet := [], createdTypes := [] }
    { type := "String!", extensions := none }
    { type := "String", extensions := none }
    (by decide) (by decide) (by decide) (by decide) (by decide) (by decide)
    (by decide) (by decide) (by decide) (by decide)
